import Mathlib

/-!
Verification of the group-expense settlement engine of the `viajes` trip
planner.  The engine is the `financialData` computation in
`src/components/TripCard.tsx` (lines 25-93) together with
`getMonthDifference` from the utility module.  Monetary amounts are
JavaScript numbers; we embed the numeric domain as `ℚ`.  The degenerate
non-numeric (`NaN`) cost values admitted by the code are modelled
separately with `Option ℚ` (`none` = `NaN`) for the error-handling claim.
-/

namespace Viajes

/-- One expense item (`TripItem` in `src/types.ts`): its cost, whether it
has been paid, and by whom (`""` = nobody selected).  The `id`/`nombre`
fields play no role in the engine. -/
structure TripItem where
  coste : ℚ
  pagado : Bool
  pagadoPor : String
deriving DecidableEq

/-- A reimbursement record (an element of `trip.compensaciones`), and also
the shape of an emitted settlement suggestion (`{deudor, acreedor,
cantidad}` pushed at TripCard.tsx:83).  The timestamp field is ignored by
the engine. -/
structure Compensacion where
  deudor : String
  acreedor : String
  cantidad : ℚ
deriving DecidableEq

/-- The slice of a `Trip` read by the engine: the ordered participant
list, the expense items grouped by category (`Object.values(trip.conceptos)`
is just the list of category lists), and the reimbursement history. -/
structure Trip where
  familias : List String
  conceptos : List (List TripItem)
  compensaciones : List Compensacion
deriving DecidableEq

/-- TripCard.tsx:26 `const allItems = Object.values(trip.conceptos).flat()`. -/
def allItems (t : Trip) : List TripItem :=
  t.conceptos.flatten

/-- TripCard.tsx:27 `allItems.reduce((sum, i) => sum + (Number(i.coste) || 0), 0)`.
On the numeric domain `Number(x) || 0 = x` (also at `x = 0`), so the guard
is the identity here; the `NaN` case is modelled below by `totalRaw`. -/
def total (t : Trip) : ℚ :=
  ((allItems t).map (fun i => i.coste)).sum

/-- TripCard.tsx:28 `allItems.reduce((sum, i) => sum + (i.pagado ? (Number(i.coste) || 0) : 0), 0)`. -/
def paid (t : Trip) : ℚ :=
  ((allItems t).map (fun i => if i.pagado then i.coste else 0)).sum

/-- TripCard.tsx:31-46.  The record `contribution` maps each family of
`trip.familias` to `0` plus the cost of every item it paid
(`item.pagado && item.pagadoPor && contribution[item.pagadoPor] !== undefined`,
where the truthiness test rules out the empty payer string) plus
`cantidad` for every reimbursement it made as `deudor` minus `cantidad`
for every one it received as `acreedor`.  A key absent from the record
(`f ∉ familias`) reads as `undefined`; such reads never feed the outputs,
we return `0` for them. -/
def contribution (t : Trip) (f : String) : ℚ :=
  if f ∈ t.familias then
    ((allItems t).map
        (fun i => if i.pagado = true ∧ i.pagadoPor = f ∧ i.pagadoPor ≠ "" then i.coste else 0)).sum
      + (t.compensaciones.map
          (fun c => (if c.deudor = f then c.cantidad else 0)
            - (if c.acreedor = f then c.cantidad else 0))).sum
  else 0

/-- TripCard.tsx:48 `const numFamilies = trip.familias.length || 1`. -/
def numFamilies (t : Trip) : ℕ :=
  if t.familias.length = 0 then 1 else t.familias.length

/-- TripCard.tsx:49 `const fairShare = total / numFamilies`. -/
def fairShare (t : Trip) : ℚ :=
  total t / (numFamilies t : ℚ)

/-- One element of the `balances` array (TripCard.tsx:51-55). -/
structure BalanceEntry where
  family : String
  contribution : ℚ
  balance : ℚ
deriving DecidableEq

/-- TripCard.tsx:51-55: one entry per family, in participant-list order
(`contribution[f] || 0` is the identity on the numeric domain since the
key is always present). -/
def balances (t : Trip) : List BalanceEntry :=
  t.familias.map (fun f => ⟨f, contribution t f, contribution t f - fairShare t⟩)

/-- Stable insertion (ascending by `balance`): a later-processed element
placed after all elements it ties with would break stability, so an
element stops at the first position whose balance it is `≤`. -/
def insertAsc (x : BalanceEntry) : List BalanceEntry → List BalanceEntry
  | [] => [x]
  | y :: ys => if x.balance ≤ y.balance then x :: y :: ys else y :: insertAsc x ys

/-- Stable sort ascending by `balance`, the semantics of the ES2019+
stable `Array.prototype.sort((a, b) => a.balance - b.balance)`. -/
def sortAsc : List BalanceEntry → List BalanceEntry
  | [] => []
  | x :: xs => insertAsc x (sortAsc xs)

/-- Stable insertion (descending by `balance`). -/
def insertDesc (x : BalanceEntry) : List BalanceEntry → List BalanceEntry
  | [] => [x]
  | y :: ys => if y.balance ≤ x.balance then x :: y :: ys else y :: insertDesc x ys

/-- Stable sort descending by `balance`, the semantics of the stable
`Array.prototype.sort((a, b) => b.balance - a.balance)`. -/
def sortDesc : List BalanceEntry → List BalanceEntry
  | [] => []
  | x :: xs => insertDesc x (sortDesc xs)

/-- TripCard.tsx:65 `balances.filter(b => b.balance < -0.01).sort((a, b) => a.balance - b.balance)`. -/
def debtors (t : Trip) : List BalanceEntry :=
  sortAsc ((balances t).filter (fun b => decide (b.balance < -(1/100))))

/-- TripCard.tsx:66 `balances.filter(b => b.balance > 0.01).sort((a, b) => b.balance - a.balance)`. -/
def creditors (t : Trip) : List BalanceEntry :=
  sortDesc ((balances t).filter (fun b => decide (b.balance > 1/100)))

/-- The mutable state of the greedy settlement loop (TripCard.tsx:68-74):
the working copies `currentDebtors`/`currentCreditors`, the two cursors
`i`/`j`, and the accumulated `settlements`. -/
structure LoopState where
  debtors : List BalanceEntry
  creditors : List BalanceEntry
  i : ℕ
  j : ℕ
  settlements : List Compensacion
deriving DecidableEq

/-- Out-of-range array reads never happen under the loop guard; this
placeholder keeps the accessors total. -/
def dflt : BalanceEntry := ⟨"", 0, 0⟩

/-- TripCard.tsx:77 `const debtor = currentDebtors[i]`. -/
def curD (s : LoopState) : BalanceEntry :=
  s.debtors.getD s.i dflt

/-- TripCard.tsx:78 `const creditor = currentCreditors[j]`. -/
def curC (s : LoopState) : BalanceEntry :=
  s.creditors.getD s.j dflt

/-- TripCard.tsx:80 `const amount = Math.min(Math.abs(debtor.balance), creditor.balance)`. -/
def amt (s : LoopState) : ℚ :=
  min |(curD s).balance| (curC s).balance

/-- One iteration of the `while` body (TripCard.tsx:77-90): take the
current debtor and creditor, transfer `amt`, emit a suggestion only when
the amount exceeds `0.01` (line 82), mutate both working balances (lines
86-87), and advance each cursor whose mutated balance is inside the
tolerance band (lines 89-90). -/
def step (s : LoopState) : LoopState :=
  ⟨s.debtors.set s.i { curD s with balance := (curD s).balance + amt s },
    s.creditors.set s.j { curC s with balance := (curC s).balance - amt s },
    if |(curD s).balance + amt s| < 1/100 then s.i + 1 else s.i,
    if (curC s).balance - amt s < 1/100 then s.j + 1 else s.j,
    if amt s > 1/100 then s.settlements ++ [⟨(curD s).family, (curC s).family, amt s⟩]
    else s.settlements⟩

/-- TripCard.tsx:76 `while (i < currentDebtors.length && j < currentCreditors.length)`. -/
def loopGuard (s : LoopState) : Prop :=
  s.i < s.debtors.length ∧ s.j < s.creditors.length

instance (s : LoopState) : Decidable (loopGuard s) :=
  inferInstanceAs (Decidable (_ ∧ _))

/-- Fuelled unfolding of the `while` loop.  `loopTerminates` below shows
that fuel `|debtors| + |creditors|` always reaches a state falsifying the
guard, so this is the exact semantics of the source loop. -/
def loopRun : ℕ → LoopState → LoopState
  | 0, s => s
  | fuel + 1, s => if loopGuard s then loopRun fuel (step s) else s

/-- The state right before the loop: sorted working copies, both cursors
at `0`, no settlements emitted. -/
def initState (t : Trip) : LoopState :=
  ⟨debtors t, creditors t, 0, 0, []⟩

/-- The state after the `while` loop has stopped. -/
def finalState (t : Trip) : LoopState :=
  loopRun ((debtors t).length + (creditors t).length) (initState t)

/-- The `settlements` output of the engine. -/
def settlements (t : Trip) : List Compensacion :=
  (finalState t).settlements

/-- Apply one suggestion to one balance entry: the debtor's balance grows
by `cantidad`, the creditor's shrinks by it, everyone else is untouched. -/
def applyOne (s : Compensacion) (b : BalanceEntry) : BalanceEntry :=
  if b.family = s.deudor then { b with balance := b.balance + s.cantidad }
  else if b.family = s.acreedor then { b with balance := b.balance - s.cantidad }
  else b

/-- Apply a list of suggestions, in order, to a balance list. -/
def applySettlements (S : List Compensacion) (B : List BalanceEntry) : List BalanceEntry :=
  S.foldl (fun acc s => acc.map (applyOne s)) B

/-- Record every emitted suggestion as a confirmed reimbursement, the way
`handleSettleDebt` (TripCard.tsx:140-150) appends to `trip.compensaciones`. -/
def settleTrip (t : Trip) : Trip :=
  { t with compensaciones := t.compensaciones ++ settlements t }

/-- A calendar date as the engine reads it: `getFullYear()` and
`getMonth()`. -/
structure YMDate where
  year : ℤ
  month : ℤ
deriving DecidableEq

/-- `getMonthDifference` from the utility module:
`(end.getFullYear() - start.getFullYear()) * 12 + (end.getMonth() - start.getMonth())`. -/
def getMonthDifference (startDate endDate : YMDate) : ℤ :=
  (endDate.year - startDate.year) * 12 + (endDate.month - startDate.month)

/-- TripCard.tsx:60 `Math.max(1, getMonthDifference(today, startObj))`. -/
def monthsUntilTrip (today startObj : YMDate) : ℤ :=
  max 1 (getMonthDifference today startObj)

/-- TripCard.tsx:61 `fairShare / monthsUntilTrip`. -/
def monthlySavingNeeded (t : Trip) (today startObj : YMDate) : ℚ :=
  fairShare t / ((monthsUntilTrip today startObj : ℤ) : ℚ)

/-! ### The `NaN` cost model

JavaScript lets `coste` be `NaN` (e.g. `parseFloat('')` from the cost
input) or missing.  `Number(i.coste) || 0` collapses that to `0`, which is
how `total` (line 27) and `paid` (line 28) read costs, but line 37 adds
the bare `Number(item.coste)` to the payer's contribution.  We model a
possibly-non-numeric cost as `Option ℚ` with `none` for `NaN`. -/

/-- An expense item whose cost may be non-numeric or missing. -/
structure RawItem where
  coste : Option ℚ
  pagado : Bool
  pagadoPor : String
deriving DecidableEq

/-- JavaScript `Number(x) || 0`: a non-numeric cost reads as `0`. -/
def numberOrZero (c : Option ℚ) : ℚ :=
  c.getD 0

/-- JavaScript addition with `NaN` absorption. -/
def nanAdd : Option ℚ → Option ℚ → Option ℚ
  | some a, some b => some (a + b)
  | _, _ => none

/-- Line 27 over possibly-non-numeric costs. -/
def totalRaw (items : List RawItem) : ℚ :=
  (items.map (fun i => numberOrZero i.coste)).sum

/-- Line 28 over possibly-non-numeric costs. -/
def paidRaw (items : List RawItem) : ℚ :=
  (items.map (fun i => if i.pagado then numberOrZero i.coste else 0)).sum

/-- Lines 31-46 over possibly-non-numeric costs: the expense pass (line 37)
adds the bare `Number(item.coste)`, so a `NaN` cost poisons the payer's
accumulated contribution; the reimbursement pass adds plain numbers. -/
def contributionRaw (familias : List String) (items : List RawItem)
    (comps : List Compensacion) (f : String) : Option ℚ :=
  if f ∈ familias then
    nanAdd
      (items.foldl
        (fun acc i =>
          if i.pagado = true ∧ i.pagadoPor = f ∧ i.pagadoPor ≠ "" then nanAdd acc i.coste else acc)
        (some 0))
      (some ((comps.map
        (fun c => (if c.deudor = f then c.cantidad else 0)
          - (if c.acreedor = f then c.cantidad else 0))).sum))
  else none

/-- Lines 51-55 over possibly-non-numeric costs: the `balances` output
reads the internal record through `contribution[f] || 0`, which collapses
an internal `NaN` to `0` on the way out (`fairShare` is always numeric
because `total` is built with the guard). -/
def balancesRaw (familias : List String) (items : List RawItem)
    (comps : List Compensacion) : List BalanceEntry :=
  familias.map (fun f =>
    ⟨f, numberOrZero (contributionRaw familias items comps f),
      numberOrZero (contributionRaw familias items comps f)
        - totalRaw items / (((if familias.length = 0 then 1 else familias.length) : ℕ) : ℚ)⟩)

/-! ### List utilities -/

theorem getD_set_self {α : Type} (l : List α) (i : ℕ) (a d : α) (h : i < l.length) :
    (l.set i a).getD i d = a := by
  induction l generalizing i with
  | nil => simp at h
  | cons x xs ih =>
    cases i with
    | zero => rfl
    | succ k => exact ih k (Nat.lt_of_succ_lt_succ h)

theorem getD_set_ne {α : Type} (l : List α) (i k : ℕ) (a d : α) (h : k ≠ i) :
    (l.set i a).getD k d = l.getD k d := by
  induction l generalizing i k with
  | nil => simp [List.set]
  | cons x xs ih =>
    cases i with
    | zero =>
      cases k with
      | zero => exact absurd rfl h
      | succ m => rfl
    | succ n =>
      cases k with
      | zero => rfl
      | succ m => exact ih n m (fun hh => h (by omega))

theorem getD_mem_of_lt {α : Type} (l : List α) (k : ℕ) (d : α) (h : k < l.length) :
    l.getD k d ∈ l := by
  rw [List.getD_eq_getElem l d h]
  exact List.getElem_mem h

theorem map_set {α β : Type} (f : α → β) (l : List α) (i : ℕ) (a : α) :
    (l.set i a).map f = (l.map f).set i (f a) := by
  induction l generalizing i with
  | nil => rfl
  | cons x xs ih =>
    cases i with
    | zero => rfl
    | succ k => simp [ih k]

theorem set_getD_self {α : Type} (l : List α) (i : ℕ) (d : α) :
    l.set i (l.getD i d) = l := by
  induction l generalizing i with
  | nil => rfl
  | cons x xs ih =>
    cases i with
    | zero => rfl
    | succ k => simpa using ih k

/-! ### Sum utilities -/

theorem sum_map_add {α : Type} (l : List α) (f g : α → ℚ) :
    (l.map (fun a => f a + g a)).sum = (l.map f).sum + (l.map g).sum := by
  induction l with
  | nil => simp
  | cons x xs ih => simp [ih]; ring

theorem sum_map_sub {α : Type} (l : List α) (f g : α → ℚ) :
    (l.map (fun a => f a - g a)).sum = (l.map f).sum - (l.map g).sum := by
  induction l with
  | nil => simp
  | cons x xs ih => simp [ih]; ring

theorem sum_map_swap {α β : Type} (l₁ : List α) (l₂ : List β) (f : α → β → ℚ) :
    (l₁.map (fun a => (l₂.map (f a)).sum)).sum
      = (l₂.map (fun b => (l₁.map (fun a => f a b)).sum)).sum := by
  induction l₁ with
  | nil => simp
  | cons x xs ih =>
    simp only [List.map_cons, List.sum_cons, ih, ← sum_map_add]

theorem sum_map_const (l : List String) (c : ℚ) :
    (l.map (fun _ => c)).sum = (l.length : ℚ) * c := by
  induction l with
  | nil => simp
  | cons x xs ih =>
    simp [ih]
    ring

theorem sum_if_single (l : List String) (hl : l.Nodup) {a : String} (ha : a ∈ l) (c : ℚ) :
    (l.map (fun f => if a = f then c else 0)).sum = c := by
  induction l with
  | nil => simp at ha
  | cons x xs ih =>
    rcases List.mem_cons.mp ha with h | h
    · subst h
      have hx : a ∉ xs := (List.nodup_cons.mp hl).1
      have : (xs.map (fun f => if a = f then c else 0)).sum = 0 :=
        List.sum_eq_zero (by
          intro y hy
          rcases List.mem_map.mp hy with ⟨f, hf, rfl⟩
          have : a ≠ f := fun hh => hx (hh ▸ hf)
          simp [this])
      simp [this]
    · have hxa : a ≠ x := fun hh => (List.nodup_cons.mp hl).1 (hh ▸ h)
      simp [hxa, ih (List.nodup_cons.mp hl).2 h]

theorem sum_if_zero (l : List String) {a : String} (ha : a ∉ l) (c : ℚ) :
    (l.map (fun f => if a = f then c else 0)).sum = 0 :=
  List.sum_eq_zero (by
    intro y hy
    rcases List.mem_map.mp hy with ⟨f, hf, rfl⟩
    have : a ≠ f := fun hh => ha (hh ▸ hf)
    simp [this])

theorem sum_pair_cancel (l : List String) (hl : l.Nodup) {a b : String} (hab : a ≠ b)
    (ha : a ∈ l) (hb : b ∈ l) (q : ℚ) :
    (l.map (fun f => if f = a then q else if f = b then -q else 0)).sum = 0 := by
  have hpt : ∀ f ∈ l,
      (if f = a then q else if f = b then -q else 0)
        = (if a = f then q else 0) + (if b = f then -q else 0) := by
    intro f _
    by_cases h1 : f = a
    · subst h1
      simp [Ne.symm hab]
    · by_cases h2 : f = b
      · subst h2
        simp [h1, hab]
      · have h1g : a ≠ f := fun hh => h1 hh.symm
        have h2g : b ≠ f := fun hh => h2 hh.symm
        simp [h1, h2, h1g, h2g]
  rw [List.map_congr_left hpt, sum_map_add, sum_if_single l hl ha, sum_if_single l hl hb]
  ring

/-! ### Stable insertion sort: membership, sortedness, stability -/

theorem mem_insertAsc {y x : BalanceEntry} {l : List BalanceEntry} :
    y ∈ insertAsc x l ↔ y = x ∨ y ∈ l := by
  induction l with
  | nil => simp [insertAsc]
  | cons z zs ih =>
    by_cases h : x.balance ≤ z.balance
    · simp [insertAsc, h]
    · simp [insertAsc, h, ih]
      tauto

theorem mem_sortAsc {y : BalanceEntry} {l : List BalanceEntry} :
    y ∈ sortAsc l ↔ y ∈ l := by
  induction l with
  | nil => simp [sortAsc]
  | cons z zs ih => simp [sortAsc, mem_insertAsc, ih]

theorem mem_insertDesc {y x : BalanceEntry} {l : List BalanceEntry} :
    y ∈ insertDesc x l ↔ y = x ∨ y ∈ l := by
  induction l with
  | nil => simp [insertDesc]
  | cons z zs ih =>
    by_cases h : z.balance ≤ x.balance
    · simp [insertDesc, h]
    · simp [insertDesc, h, ih]
      tauto

theorem mem_sortDesc {y : BalanceEntry} {l : List BalanceEntry} :
    y ∈ sortDesc l ↔ y ∈ l := by
  induction l with
  | nil => simp [sortDesc]
  | cons z zs ih => simp [sortDesc, mem_insertDesc, ih]

theorem pairwise_insertAsc (x : BalanceEntry) {l : List BalanceEntry}
    (h : l.Pairwise (fun a b => a.balance ≤ b.balance)) :
    (insertAsc x l).Pairwise (fun a b => a.balance ≤ b.balance) := by
  induction l with
  | nil => simp [insertAsc]
  | cons z zs ih =>
    rcases List.pairwise_cons.mp h with ⟨hz, hzs⟩
    by_cases hxz : x.balance ≤ z.balance
    · rw [insertAsc, if_pos hxz]
      refine List.pairwise_cons.mpr ⟨?_, h⟩
      intro y hy
      rcases List.mem_cons.mp hy with rfl | hy
      · exact hxz
      · exact le_trans hxz (hz y hy)
    · rw [insertAsc, if_neg hxz]
      refine List.pairwise_cons.mpr ⟨?_, ih hzs⟩
      intro y hy
      rcases mem_insertAsc.mp hy with rfl | hy
      · exact le_of_lt (lt_of_not_le hxz)
      · exact hz y hy

theorem pairwise_sortAsc (l : List BalanceEntry) :
    (sortAsc l).Pairwise (fun a b => a.balance ≤ b.balance) := by
  induction l with
  | nil => simp [sortAsc]
  | cons z zs ih => exact pairwise_insertAsc z ih

theorem pairwise_insertDesc (x : BalanceEntry) {l : List BalanceEntry}
    (h : l.Pairwise (fun a b => b.balance ≤ a.balance)) :
    (insertDesc x l).Pairwise (fun a b => b.balance ≤ a.balance) := by
  induction l with
  | nil => simp [insertDesc]
  | cons z zs ih =>
    rcases List.pairwise_cons.mp h with ⟨hz, hzs⟩
    by_cases hzx : z.balance ≤ x.balance
    · rw [insertDesc, if_pos hzx]
      refine List.pairwise_cons.mpr ⟨?_, h⟩
      intro y hy
      rcases List.mem_cons.mp hy with rfl | hy
      · exact hzx
      · exact le_trans (hz y hy) hzx
    · rw [insertDesc, if_neg hzx]
      refine List.pairwise_cons.mpr ⟨?_, ih hzs⟩
      intro y hy
      rcases mem_insertDesc.mp hy with rfl | hy
      · exact le_of_lt (lt_of_not_le hzx)
      · exact hz y hy

theorem pairwise_sortDesc (l : List BalanceEntry) :
    (sortDesc l).Pairwise (fun a b => b.balance ≤ a.balance) := by
  induction l with
  | nil => simp [sortDesc]
  | cons z zs ih => exact pairwise_insertDesc z ih

theorem filter_insertAsc (x : BalanceEntry) (l : List BalanceEntry) (q : ℚ) :
    (insertAsc x l).filter (fun b => decide (b.balance = q))
      = if x.balance = q then x :: l.filter (fun b => decide (b.balance = q))
        else l.filter (fun b => decide (b.balance = q)) := by
  induction l with
  | nil =>
    rw [insertAsc]
    by_cases h : x.balance = q <;> simp [List.filter, h]
  | cons z zs ih =>
    by_cases hxz : x.balance ≤ z.balance
    · rw [insertAsc, if_pos hxz]
      by_cases h : x.balance = q <;> simp [List.filter_cons, h]
    · rw [insertAsc, if_neg hxz]
      have hzx : z.balance < x.balance := lt_of_not_le hxz
      by_cases h : x.balance = q
      · have hz : z.balance ≠ q := by
          intro hq
          rw [← h] at hq
          exact absurd (hq ▸ hzx) (lt_irrefl _)
        rw [if_pos h]
        simp [List.filter_cons, hz, ih, h]
      · rw [if_neg h]
        by_cases hz : z.balance = q <;> simp [List.filter_cons, hz, ih, h]

theorem filter_sortAsc (l : List BalanceEntry) (q : ℚ) :
    (sortAsc l).filter (fun b => decide (b.balance = q))
      = l.filter (fun b => decide (b.balance = q)) := by
  induction l with
  | nil => rfl
  | cons z zs ih =>
    by_cases h : z.balance = q <;>
      simp [sortAsc, filter_insertAsc, h, ih, List.filter_cons]

theorem filter_insertDesc (x : BalanceEntry) (l : List BalanceEntry) (q : ℚ) :
    (insertDesc x l).filter (fun b => decide (b.balance = q))
      = if x.balance = q then x :: l.filter (fun b => decide (b.balance = q))
        else l.filter (fun b => decide (b.balance = q)) := by
  induction l with
  | nil =>
    rw [insertDesc]
    by_cases h : x.balance = q <;> simp [List.filter, h]
  | cons z zs ih =>
    by_cases hzx : z.balance ≤ x.balance
    · rw [insertDesc, if_pos hzx]
      by_cases h : x.balance = q <;> simp [List.filter_cons, h]
    · rw [insertDesc, if_neg hzx]
      have hxz : x.balance < z.balance := lt_of_not_le hzx
      by_cases h : x.balance = q
      · have hz : z.balance ≠ q := by
          intro hq
          rw [← h] at hq
          exact absurd (hq ▸ hxz) (lt_irrefl _)
        rw [if_pos h]
        simp [List.filter_cons, hz, ih, h]
      · rw [if_neg h]
        by_cases hz : z.balance = q <;> simp [List.filter_cons, hz, ih, h]

theorem filter_sortDesc (l : List BalanceEntry) (q : ℚ) :
    (sortDesc l).filter (fun b => decide (b.balance = q))
      = l.filter (fun b => decide (b.balance = q)) := by
  induction l with
  | nil => rfl
  | cons z zs ih =>
    by_cases h : z.balance = q <;>
      simp [sortDesc, filter_insertDesc, h, ih, List.filter_cons]

/-! ### Facts about `balances`, `debtors`, `creditors` -/

theorem balances_map_family (t : Trip) :
    (balances t).map BalanceEntry.family = t.familias := by
  have hcomp : (BalanceEntry.family ∘ fun f =>
      (⟨f, contribution t f, contribution t f - fairShare t⟩ : BalanceEntry)) = id := rfl
  rw [balances, List.map_map, hcomp, List.map_id]

theorem mem_balances {t : Trip} {b : BalanceEntry} (hb : b ∈ balances t) :
    b.family ∈ t.familias ∧ b.contribution = contribution t b.family
      ∧ b.balance = contribution t b.family - fairShare t := by
  rcases List.mem_map.mp hb with ⟨f, hf, rfl⟩
  exact ⟨hf, rfl, rfl⟩

theorem mem_debtors {t : Trip} {b : BalanceEntry} (hb : b ∈ debtors t) :
    b ∈ balances t ∧ b.balance < -(1/100) := by
  have := mem_sortAsc.mp hb
  rcases List.mem_filter.mp this with ⟨h1, h2⟩
  exact ⟨h1, of_decide_eq_true h2⟩

theorem mem_creditors {t : Trip} {b : BalanceEntry} (hb : b ∈ creditors t) :
    b ∈ balances t ∧ b.balance > 1/100 := by
  have := mem_sortDesc.mp hb
  rcases List.mem_filter.mp this with ⟨h1, h2⟩
  exact ⟨h1, of_decide_eq_true h2⟩

/-! ### The loop invariant -/

theorem step_debtors (s : LoopState) :
    (step s).debtors = s.debtors.set s.i { curD s with balance := (curD s).balance + amt s } :=
  rfl

theorem step_creditors (s : LoopState) :
    (step s).creditors = s.creditors.set s.j { curC s with balance := (curC s).balance - amt s } :=
  rfl

theorem step_i (s : LoopState) :
    (step s).i = if |(curD s).balance + amt s| < 1/100 then s.i + 1 else s.i :=
  rfl

theorem step_j (s : LoopState) :
    (step s).j = if (curC s).balance - amt s < 1/100 then s.j + 1 else s.j :=
  rfl

theorem step_settlements (s : LoopState) :
    (step s).settlements
      = if amt s > 1/100 then s.settlements ++ [⟨(curD s).family, (curC s).family, amt s⟩]
        else s.settlements :=
  rfl

/-- Everything the loop preserves: working-list lengths and families never
change, every debtor entry the cursor has passed is inside the tolerance
band, the current and future debtor entries are still nonpositive, every
creditor entry the cursor has passed sits in `[0, 0.01)`, and every
emitted suggestion exceeds the tolerance and names a filtered debtor and
creditor family. -/
structure Inv (t : Trip) (s : LoopState) : Prop where
  hlD : s.debtors.length = (debtors t).length
  hlC : s.creditors.length = (creditors t).length
  hfD : s.debtors.map BalanceEntry.family = (debtors t).map BalanceEntry.family
  hfC : s.creditors.map BalanceEntry.family = (creditors t).map BalanceEntry.family
  hpD : ∀ k, k < s.i → |(s.debtors.getD k dflt).balance| < 1/100
  hcD : ∀ k, s.i ≤ k → (s.debtors.getD k dflt).balance ≤ 0
  hpC : ∀ k, k < s.j → 0 ≤ (s.creditors.getD k dflt).balance
      ∧ (s.creditors.getD k dflt).balance < 1/100
  hsS : ∀ x ∈ s.settlements, 1/100 < x.cantidad
      ∧ x.deudor ∈ (debtors t).map BalanceEntry.family
      ∧ x.acreedor ∈ (creditors t).map BalanceEntry.family

theorem inv_init (t : Trip) : Inv t (initState t) := by
  refine ⟨rfl, rfl, rfl, rfl, ?_, ?_, ?_, ?_⟩
  · intro k hk
    exact absurd hk (Nat.not_lt_zero k)
  · intro k _
    show ((debtors t).getD k dflt).balance ≤ 0
    by_cases h : k < (debtors t).length
    · rw [List.getD_eq_getElem _ _ h]
      have hmem := (mem_debtors (List.getElem_mem h)).2
      linarith
    · rw [List.getD_eq_default _ _ (le_of_not_lt h)]
      simp [dflt]
  · intro k hk
    exact absurd hk (Nat.not_lt_zero k)
  · intro x hx
    exact absurd hx (List.not_mem_nil x)

theorem inv_step {t : Trip} {s : LoopState} (hs : Inv t s) (hg : loopGuard s) :
    Inv t (step s) := by
  obtain ⟨hi, hj⟩ := hg
  have hd0 : (curD s).balance ≤ 0 := hs.hcD s.i le_rfl
  have habs : |(curD s).balance| = -(curD s).balance := abs_of_nonpos hd0
  have hamt_led : amt s ≤ -(curD s).balance := by
    rw [← habs]
    exact min_le_left _ _
  have hamt_lec : amt s ≤ (curC s).balance := min_le_right _ _
  have hnew_d : (curD s).balance + amt s ≤ 0 := by linarith
  have hnew_c : 0 ≤ (curC s).balance - amt s := by linarith
  refine ⟨?_, ?_, ?_, ?_, ?_, ?_, ?_, ?_⟩
  · rw [step_debtors, List.length_set, hs.hlD]
  · rw [step_creditors, List.length_set, hs.hlC]
  · rw [step_debtors, map_set]
    have hfam : BalanceEntry.family { curD s with balance := (curD s).balance + amt s }
        = BalanceEntry.family (s.debtors.getD s.i dflt) := rfl
    rw [hfam, ← List.getD_map s.debtors dflt BalanceEntry.family, set_getD_self, hs.hfD]
  · rw [step_creditors, map_set]
    have hfam : BalanceEntry.family { curC s with balance := (curC s).balance - amt s }
        = BalanceEntry.family (s.creditors.getD s.j dflt) := rfl
    rw [hfam, ← List.getD_map s.creditors dflt BalanceEntry.family, set_getD_self, hs.hfC]
  · intro k hk
    rw [step_i] at hk
    rw [step_debtors]
    by_cases hadv : |(curD s).balance + amt s| < 1/100
    · rw [if_pos hadv] at hk
      by_cases hki : k = s.i
      · subst hki
        rw [getD_set_self _ _ _ _ hi]
        exact hadv
      · rw [getD_set_ne _ _ _ _ _ hki]
        exact hs.hpD k (by omega)
    · rw [if_neg hadv] at hk
      have hki : k ≠ s.i := by omega
      rw [getD_set_ne _ _ _ _ _ hki]
      exact hs.hpD k hk
  · intro k hk
    rw [step_i] at hk
    rw [step_debtors]
    by_cases hadv : |(curD s).balance + amt s| < 1/100
    · rw [if_pos hadv] at hk
      have hki : k ≠ s.i := by omega
      rw [getD_set_ne _ _ _ _ _ hki]
      exact hs.hcD k (by omega)
    · rw [if_neg hadv] at hk
      by_cases hki : k = s.i
      · subst hki
        rw [getD_set_self _ _ _ _ hi]
        exact hnew_d
      · rw [getD_set_ne _ _ _ _ _ hki]
        exact hs.hcD k hk
  · intro k hk
    rw [step_j] at hk
    rw [step_creditors]
    by_cases hadv : (curC s).balance - amt s < 1/100
    · rw [if_pos hadv] at hk
      by_cases hkj : k = s.j
      · subst hkj
        rw [getD_set_self _ _ _ _ hj]
        exact ⟨hnew_c, hadv⟩
      · rw [getD_set_ne _ _ _ _ _ hkj]
        exact hs.hpC k (by omega)
    · rw [if_neg hadv] at hk
      have hkj : k ≠ s.j := by omega
      rw [getD_set_ne _ _ _ _ _ hkj]
      exact hs.hpC k hk
  · intro x hx
    rw [step_settlements] at hx
    by_cases hem : amt s > 1/100
    · rw [if_pos hem] at hx
      rcases List.mem_append.mp hx with hx | hx
      · exact hs.hsS x hx
      · have hx' : x = ⟨(curD s).family, (curC s).family, amt s⟩ := List.mem_singleton.mp hx
        subst hx'
        refine ⟨hem, ?_, ?_⟩
        · rw [← hs.hfD]
          exact List.mem_map_of_mem BalanceEntry.family (getD_mem_of_lt _ _ _ hi)
        · rw [← hs.hfC]
          exact List.mem_map_of_mem BalanceEntry.family (getD_mem_of_lt _ _ _ hj)
    · rw [if_neg hem] at hx
      exact hs.hsS x hx

theorem step_i_ge (s : LoopState) : s.i ≤ (step s).i := by
  rw [step_i]
  by_cases h : |(curD s).balance + amt s| < 1/100
  · rw [if_pos h]
    omega
  · rw [if_neg h]

theorem step_j_ge (s : LoopState) : s.j ≤ (step s).j := by
  rw [step_j]
  by_cases h : (curC s).balance - amt s < 1/100
  · rw [if_pos h]
    omega
  · rw [if_neg h]

/-- Every guarded iteration drives one of the two working balances to
exactly zero, so at least one cursor advances: this is what makes the
`while` loop terminate. -/
theorem step_advance {t : Trip} {s : LoopState} (hs : Inv t s) :
    s.i + s.j + 1 ≤ (step s).i + (step s).j := by
  have hd0 : (curD s).balance ≤ 0 := hs.hcD s.i le_rfl
  have habs : |(curD s).balance| = -(curD s).balance := abs_of_nonpos hd0
  rcases le_total |(curD s).balance| (curC s).balance with hle | hle
  · have hamt : amt s = |(curD s).balance| := min_eq_left hle
    have hzero : (curD s).balance + amt s = 0 := by
      rw [hamt, habs]
      ring
    have hadv : |(curD s).balance + amt s| < 1/100 := by
      rw [hzero]
      norm_num
    have := step_j_ge s
    rw [step_i, if_pos hadv]
    omega
  · have hamt : amt s = (curC s).balance := min_eq_right hle
    have hzero : (curC s).balance - amt s = 0 := by
      rw [hamt]
      ring
    have hadv : (curC s).balance - amt s < 1/100 := by
      rw [hzero]
      norm_num
    have := step_i_ge s
    rw [step_j, if_pos hadv]
    omega

/-! ### Termination of the loop -/

theorem loopRun_of_not_guard {s : LoopState} (h : ¬ loopGuard s) (n : ℕ) :
    loopRun n s = s := by
  cases n with
  | zero => rfl
  | succ k => simp [loopRun, h]

theorem run_reaches {t : Trip} :
    ∀ (fuel : ℕ) (s : LoopState), Inv t s →
      s.debtors.length + s.creditors.length ≤ fuel + s.i + s.j →
      Inv t (loopRun fuel s) ∧ ¬ loopGuard (loopRun fuel s) := by
  intro fuel
  induction fuel with
  | zero =>
    intro s hs hb
    refine ⟨hs, ?_⟩
    intro hg
    obtain ⟨h1, h2⟩ := hg
    simp only [loopRun] at h1 h2
    omega
  | succ n ih =>
    intro s hs hb
    by_cases hg : loopGuard s
    · have hrw : loopRun (n + 1) s = loopRun n (step s) := by
        simp [loopRun, hg]
      rw [hrw]
      apply ih (step s) (inv_step hs hg)
      have hadv := step_advance hs
      have hl1 : (step s).debtors.length = s.debtors.length := by
        rw [step_debtors, List.length_set]
      have hl2 : (step s).creditors.length = s.creditors.length := by
        rw [step_creditors, List.length_set]
      omega
    · rw [loopRun_of_not_guard hg]
      exact ⟨hs, hg⟩

theorem finalState_inv (t : Trip) : Inv t (finalState t) ∧ ¬ loopGuard (finalState t) := by
  apply run_reaches
  · exact inv_init t
  · exact le_refl _

theorem loopRun_add (m n : ℕ) (s : LoopState) :
    loopRun (m + n) s = loopRun n (loopRun m s) := by
  induction m generalizing s with
  | zero =>
    rw [Nat.zero_add]
    rfl
  | succ k ih =>
    by_cases hg : loopGuard s
    · have h1 : k + 1 + n = (k + n) + 1 := by omega
      have h2 : loopRun ((k + n) + 1) s = loopRun (k + n) (step s) := by
        simp [loopRun, hg]
      have h3 : loopRun (k + 1) s = loopRun k (step s) := by
        simp [loopRun, hg]
      rw [h1, h2, ih (step s), h3]
    · rw [loopRun_of_not_guard hg, loopRun_of_not_guard hg, loopRun_of_not_guard hg]

/-! ### Applying suggestions to balances -/

/-- Apply a whole suggestion list to a single entry. -/
def applyAll (S : List Compensacion) (b : BalanceEntry) : BalanceEntry :=
  S.foldl (fun x s => applyOne s x) b

theorem applyOne_family (s : Compensacion) (b : BalanceEntry) :
    (applyOne s b).family = b.family := by
  rw [applyOne]
  by_cases h1 : b.family = s.deudor
  · rw [if_pos h1]
  · rw [if_neg h1]
    by_cases h2 : b.family = s.acreedor
    · rw [if_pos h2]
    · rw [if_neg h2]

theorem applyOne_balance (s : Compensacion) (b : BalanceEntry) :
    (applyOne s b).balance
      = b.balance + (if b.family = s.deudor then s.cantidad
          else if b.family = s.acreedor then -s.cantidad else 0) := by
  rw [applyOne]
  by_cases h1 : b.family = s.deudor
  · rw [if_pos h1, if_pos h1]
  · rw [if_neg h1, if_neg h1]
    by_cases h2 : b.family = s.acreedor
    · rw [if_pos h2, if_pos h2]
      ring
    · rw [if_neg h2, if_neg h2]
      ring

theorem applyAll_family (S : List Compensacion) (b : BalanceEntry) :
    (applyAll S b).family = b.family := by
  induction S generalizing b with
  | nil => rfl
  | cons s S ih =>
    show (applyAll S (applyOne s b)).family = b.family
    rw [ih (applyOne s b), applyOne_family]

theorem applyAll_balance (S : List Compensacion) (b : BalanceEntry) :
    (applyAll S b).balance
      = b.balance + (S.map (fun s => if b.family = s.deudor then s.cantidad
          else if b.family = s.acreedor then -s.cantidad else 0)).sum := by
  induction S generalizing b with
  | nil => simp [applyAll]
  | cons s S ih =>
    show (applyAll S (applyOne s b)).balance = _
    rw [ih (applyOne s b), applyOne_balance]
    have hfam : (applyOne s b).family = b.family := applyOne_family s b
    rw [hfam]
    simp only [List.map_cons, List.sum_cons]
    ring

theorem applySettlements_eq_map (S : List Compensacion) (B : List BalanceEntry) :
    applySettlements S B = B.map (applyAll S) := by
  induction S generalizing B with
  | nil =>
    show B = B.map (fun b => b)
    rw [List.map_id']
  | cons s S ih =>
    show applySettlements S (B.map (applyOne s)) = _
    rw [ih (B.map (applyOne s)), List.map_map]
    rfl

theorem applySettlements_map_family (S : List Compensacion) (B : List BalanceEntry) :
    (applySettlements S B).map BalanceEntry.family = B.map BalanceEntry.family := by
  rw [applySettlements_eq_map, List.map_map]
  apply List.map_congr_left
  intro b _
  exact applyAll_family S b

/-- The signed adjustment a reimbursement record makes to family `f`
matches the adjustment `applyOne` makes to a balance entry of family `f`,
as long as the record is not a self-payment. -/
theorem delta_eq {s : Compensacion} (hne : s.deudor ≠ s.acreedor) (f : String) :
    (if s.deudor = f then s.cantidad else 0) - (if s.acreedor = f then s.cantidad else 0)
      = if f = s.deudor then s.cantidad else if f = s.acreedor then -s.cantidad else 0 := by
  by_cases h1 : f = s.deudor
  · have h1' : s.deudor = f := h1.symm
    have h2 : s.acreedor ≠ f := fun hh => hne (h1' ▸ hh.symm ▸ rfl)
    rw [if_pos h1', if_neg h2, if_pos h1]
    ring
  · have h1' : s.deudor ≠ f := fun hh => h1 hh.symm
    rw [if_neg h1', if_neg h1]
    by_cases h2 : f = s.acreedor
    · rw [if_pos h2.symm, if_pos h2]
      ring
    · rw [if_neg (fun hh => h2 hh.symm), if_neg h2]
      ring

/-! ### Re-running the engine after recording the suggestions -/

theorem total_settleTrip (t : Trip) : total (settleTrip t) = total t := rfl

theorem fairShare_settleTrip (t : Trip) : fairShare (settleTrip t) = fairShare t := rfl

theorem familias_settleTrip (t : Trip) : (settleTrip t).familias = t.familias := rfl

theorem contribution_settleTrip {t : Trip} {f : String} (hf : f ∈ t.familias) :
    contribution (settleTrip t) f
      = contribution t f
        + ((settlements t).map (fun c => (if c.deudor = f then c.cantidad else 0)
            - (if c.acreedor = f then c.cantidad else 0))).sum := by
  show (if f ∈ t.familias then _ else 0) = _
  rw [contribution, if_pos hf, if_pos hf]
  show _ + (((t.compensaciones ++ settlements t).map _).sum) = _
  rw [List.map_append, List.sum_append]
  have hitems : allItems (settleTrip t) = allItems t := rfl
  rw [hitems]
  ring

theorem balance_settleTrip {t : Trip}
    (hded : ∀ s ∈ settlements t, s.deudor ≠ s.acreedor) {f : String} (hf : f ∈ t.familias) :
    contribution (settleTrip t) f - fairShare (settleTrip t)
      = (applyAll (settlements t)
          ⟨f, contribution t f, contribution t f - fairShare t⟩).balance := by
  rw [applyAll_balance, fairShare_settleTrip, contribution_settleTrip hf]
  have : ((settlements t).map (fun c => (if c.deudor = f then c.cantidad else 0)
        - (if c.acreedor = f then c.cantidad else 0))).sum
      = ((settlements t).map (fun s => if f = s.deudor then s.cantidad
          else if f = s.acreedor then -s.cantidad else 0)).sum := by
    congr 1
    apply List.map_congr_left
    intro s hs
    exact delta_eq (hded s hs) f
  rw [this]
  ring

/-! ### What the emitted suggestions guarantee -/

theorem settlements_spec (t : Trip) :
    ∀ s ∈ settlements t, 1/100 < s.cantidad
      ∧ (∃ b ∈ balances t, b.family = s.deudor ∧ b.balance < -(1/100))
      ∧ (∃ b ∈ balances t, b.family = s.acreedor ∧ b.balance > 1/100)
      ∧ s.deudor ≠ s.acreedor := by
  intro s hsm
  obtain ⟨hinv, _⟩ := finalState_inv t
  obtain ⟨hq, hdm, hcm⟩ := hinv.hsS s hsm
  rcases List.mem_map.mp hdm with ⟨bd, hbd, hbdf⟩
  have hbd' := mem_debtors hbd
  rcases List.mem_map.mp hcm with ⟨bc, hbc, hbcf⟩
  have hbc' := mem_creditors hbc
  refine ⟨hq, ⟨bd, hbd'.1, hbdf, hbd'.2⟩, ⟨bc, hbc'.1, hbcf, hbc'.2⟩, ?_⟩
  intro hne
  have h1 := (mem_balances hbd'.1).2.2
  have h2 := (mem_balances hbc'.1).2.2
  have hfameq : bd.family = bc.family := by rw [hbdf, hne, hbcf]
  rw [hfameq, ← h2] at h1
  have hblt := hbd'.2
  have hbgt := hbc'.2
  rw [h1] at hblt
  linarith

/-- Hypothesis: the loop stopped only because it ran out of entries on
both sides at once. -/
def bothExhausted (t : Trip) : Prop :=
  (debtors t).length ≤ (finalState t).i ∧ (creditors t).length ≤ (finalState t).j

/-- Hypothesis: every transfer the loop applied to its working balances
was also emitted as a suggestion (no transfer of amount `≤ 0.01` was
silently applied), stated extensionally: replaying the emitted
suggestions on the engine balances reproduces the loop's final working
balances, family by family. -/
def emittedFaithful (t : Trip) : Prop :=
  ∀ e ∈ applySettlements (settlements t) (balances t),
    ∀ w ∈ (finalState t).debtors ++ (finalState t).creditors,
      w.family = e.family → e.balance = w.balance

theorem applied_tolerance (t : Trip) (hex : bothExhausted t) (hw : emittedFaithful t) :
    ∀ e ∈ applySettlements (settlements t) (balances t), |e.balance| ≤ 1/100 := by
  obtain ⟨hinv, _⟩ := finalState_inv t
  intro e he
  by_cases hd : e.family ∈ (debtors t).map BalanceEntry.family
  · rw [← hinv.hfD] at hd
    rcases List.mem_map.mp hd with ⟨w, hwmem, hwf⟩
    have heq := hw e he w (List.mem_append_left _ hwmem) hwf
    rcases List.mem_iff_getElem.mp hwmem with ⟨k, hk, hkw⟩
    have hklt : k < (finalState t).i := by
      have h1 := hinv.hlD
      have h2 := hex.1
      omega
    have htol := hinv.hpD k hklt
    rw [List.getD_eq_getElem _ _ hk, hkw] at htol
    rw [heq]
    exact le_of_lt htol
  · by_cases hc : e.family ∈ (creditors t).map BalanceEntry.family
    · rw [← hinv.hfC] at hc
      rcases List.mem_map.mp hc with ⟨w, hwmem, hwf⟩
      have heq := hw e he w (List.mem_append_right _ hwmem) hwf
      rcases List.mem_iff_getElem.mp hwmem with ⟨k, hk, hkw⟩
      have hklt : k < (finalState t).j := by
        have h1 := hinv.hlC
        have h2 := hex.2
        omega
      have htol := hinv.hpC k hklt
      rw [List.getD_eq_getElem _ _ hk, hkw] at htol
      rw [heq]
      rw [abs_le]
      constructor <;> linarith [htol.1, htol.2]
    · rw [applySettlements_eq_map] at he
      rcases List.mem_map.mp he with ⟨b0, hb0, rfl⟩
      have hfam : (applyAll (settlements t) b0).family = b0.family :=
        applyAll_family (settlements t) b0
      have hbal : (applyAll (settlements t) b0).balance = b0.balance := by
        rw [applyAll_balance]
        have hz : ∀ s ∈ settlements t,
            (if b0.family = s.deudor then s.cantidad
              else if b0.family = s.acreedor then -s.cantidad else 0) = 0 := by
          intro s hsm
          obtain ⟨_, hdm, hcm⟩ := hinv.hsS s hsm
          have hd' : b0.family ≠ s.deudor := by
            intro hh
            apply hd
            rw [hfam, hh]
            exact hdm
          have hc' : b0.family ≠ s.acreedor := by
            intro hh
            apply hc
            rw [hfam, hh]
            exact hcm
          rw [if_neg hd', if_neg hc']
        have : ((settlements t).map (fun s => if b0.family = s.deudor then s.cantidad
            else if b0.family = s.acreedor then -s.cantidad else 0)).sum = 0 := by
          apply List.sum_eq_zero
          intro x hx
          rcases List.mem_map.mp hx with ⟨s, hs, rfl⟩
          exact hz s hs
        rw [this]
        ring
      have hnotd : ¬ b0.balance < -(1/100) := by
        intro hlt
        apply hd
        rw [hfam]
        apply List.mem_map_of_mem
        apply mem_sortAsc.mpr
        exact List.mem_filter.mpr ⟨hb0, decide_eq_true hlt⟩
      have hnotc : ¬ b0.balance > 1/100 := by
        intro hgt
        apply hc
        rw [hfam]
        apply List.mem_map_of_mem
        apply mem_sortDesc.mpr
        exact List.mem_filter.mpr ⟨hb0, decide_eq_true hgt⟩
      rw [hbal, abs_le]
      constructor <;> linarith [not_lt.mp hnotd, not_lt.mp hnotc]

theorem settle_nil (t : Trip) (hex : bothExhausted t) (hw : emittedFaithful t) :
    settlements (settleTrip t) = [] := by
  have htol := applied_tolerance t hex hw
  have hded : ∀ s ∈ settlements t, s.deudor ≠ s.acreedor := by
    intro s hs
    exact (settlements_spec t s hs).2.2.2
  have hballs : ∀ b ∈ balances (settleTrip t),
      ¬ b.balance < -(1/100) ∧ ¬ b.balance > 1/100 := by
    intro b hb
    rcases List.mem_map.mp hb with ⟨f, hf, rfl⟩
    have hf' : f ∈ t.familias := hf
    have heq := balance_settleTrip hded hf'
    have hemem : applyAll (settlements t) ⟨f, contribution t f, contribution t f - fairShare t⟩
        ∈ applySettlements (settlements t) (balances t) := by
      rw [applySettlements_eq_map]
      exact List.mem_map_of_mem _ (List.mem_map_of_mem _ hf')
    have habs := htol _ hemem
    rw [← heq] at habs
    rcases abs_le.mp habs with ⟨hlo, hhi⟩
    constructor <;> intro h
    · simp only at h
      linarith
    · simp only at h
      linarith
  have hD : (balances (settleTrip t)).filter (fun b => decide (b.balance < -(1/100))) = [] := by
    apply List.filter_eq_nil_iff.mpr
    intro b hb
    simpa using (hballs b hb).1
  have hC : (balances (settleTrip t)).filter (fun b => decide (b.balance > 1/100)) = [] := by
    apply List.filter_eq_nil_iff.mpr
    intro b hb
    simpa using (hballs b hb).2
  have hDnil : debtors (settleTrip t) = [] := by
    rw [debtors, hD]
    rfl
  have hCnil : creditors (settleTrip t) = [] := by
    rw [creditors, hC]
    rfl
  show (finalState (settleTrip t)).settlements = []
  rw [finalState, initState, hDnil, hCnil]
  rfl

/-! ### The zero-sum computation -/

theorem balances_map_balance (t : Trip) :
    (balances t).map BalanceEntry.balance
      = t.familias.map (fun f => contribution t f - fairShare t) := by
  rw [balances, List.map_map]
  rfl

theorem sum_items_part (t : Trip) (hnd : t.familias.Nodup)
    (hitems : ∀ i ∈ allItems t, i.pagado = true ∧ i.pagadoPor ∈ t.familias ∧ i.pagadoPor ≠ "") :
    (t.familias.map (fun f => ((allItems t).map
        (fun i => if i.pagado = true ∧ i.pagadoPor = f ∧ i.pagadoPor ≠ "" then i.coste
          else 0)).sum)).sum = total t := by
  rw [sum_map_swap]
  have hpt : ∀ i ∈ allItems t,
      (t.familias.map (fun f =>
        if i.pagado = true ∧ i.pagadoPor = f ∧ i.pagadoPor ≠ "" then i.coste else 0)).sum
        = i.coste := by
    intro i hi
    obtain ⟨hp, hm, hne⟩ := hitems i hi
    have heq : t.familias.map (fun f =>
        if i.pagado = true ∧ i.pagadoPor = f ∧ i.pagadoPor ≠ "" then i.coste else 0)
        = t.familias.map (fun f => if i.pagadoPor = f then i.coste else 0) := by
      apply List.map_congr_left
      intro f _
      by_cases hpf : i.pagadoPor = f
      · rw [if_pos ⟨hp, hpf, hne⟩, if_pos hpf]
      · rw [if_neg (fun hh => hpf hh.2.1), if_neg hpf]
    rw [heq, sum_if_single t.familias hnd hm]
  rw [List.map_congr_left hpt]
  rfl

theorem sum_comps_part (t : Trip) (hnd : t.familias.Nodup)
    (hcomps : ∀ c ∈ t.compensaciones, (c.deudor ∈ t.familias ↔ c.acreedor ∈ t.familias)) :
    (t.familias.map (fun f => (t.compensaciones.map
        (fun c => (if c.deudor = f then c.cantidad else 0)
          - (if c.acreedor = f then c.cantidad else 0))).sum)).sum = 0 := by
  rw [sum_map_swap]
  apply List.sum_eq_zero
  intro x hx
  rcases List.mem_map.mp hx with ⟨c, hc, rfl⟩
  rw [sum_map_sub]
  by_cases hdin : c.deudor ∈ t.familias
  · have hain : c.acreedor ∈ t.familias := (hcomps c hc).mp hdin
    rw [sum_if_single t.familias hnd hdin, sum_if_single t.familias hnd hain]
    ring
  · have hain : c.acreedor ∉ t.familias := fun h => hdin ((hcomps c hc).mpr h)
    rw [sum_if_zero t.familias hdin, sum_if_zero t.familias hain]
    ring

theorem sum_balances_zero (t : Trip) (hnd : t.familias.Nodup)
    (hitems : ∀ i ∈ allItems t, i.pagado = true ∧ i.pagadoPor ∈ t.familias ∧ i.pagadoPor ≠ "")
    (hcomps : ∀ c ∈ t.compensaciones, (c.deudor ∈ t.familias ↔ c.acreedor ∈ t.familias)) :
    ((balances t).map BalanceEntry.balance).sum = 0 := by
  by_cases hemp : t.familias = []
  · rw [balances, hemp]
    rfl
  · have hn : t.familias.length ≠ 0 := fun h => hemp (List.length_eq_zero.mp h)
    rw [balances_map_balance, sum_map_sub, sum_map_const]
    have h1 : t.familias.map (contribution t) = t.familias.map (fun f =>
        ((allItems t).map (fun i =>
          if i.pagado = true ∧ i.pagadoPor = f ∧ i.pagadoPor ≠ "" then i.coste else 0)).sum
        + (t.compensaciones.map (fun c => (if c.deudor = f then c.cantidad else 0)
            - (if c.acreedor = f then c.cantidad else 0))).sum) := by
      apply List.map_congr_left
      intro f hf
      rw [contribution, if_pos hf]
    rw [h1, sum_map_add, sum_items_part t hnd hitems, sum_comps_part t hnd hcomps]
    rw [fairShare]
    have hnf : (numFamilies t : ℚ) = (t.familias.length : ℚ) := by
      rw [numFamilies, if_neg hn]
    rw [hnf]
    have hlen0 : (t.familias.length : ℚ) ≠ 0 := Nat.cast_ne_zero.mpr hn
    field_simp

theorem sum_applySettlements :
    ∀ (S : List Compensacion) (B : List BalanceEntry),
      (B.map BalanceEntry.family).Nodup →
      (∀ s ∈ S, s.deudor ∈ B.map BalanceEntry.family
        ∧ s.acreedor ∈ B.map BalanceEntry.family ∧ s.deudor ≠ s.acreedor) →
      ((applySettlements S B).map BalanceEntry.balance).sum
        = (B.map BalanceEntry.balance).sum := by
  intro S
  induction S with
  | nil =>
    intro B _ _
    rfl
  | cons s S ih =>
    intro B hnd hmem
    have hfam : (B.map (applyOne s)).map BalanceEntry.family = B.map BalanceEntry.family := by
      rw [List.map_map]
      apply List.map_congr_left
      intro b _
      exact applyOne_family s b
    show ((applySettlements S (B.map (applyOne s))).map BalanceEntry.balance).sum = _
    rw [ih (B.map (applyOne s)) (by rw [hfam]; exact hnd) ?hm]
    case hm =>
      intro x hx
      have := hmem x (List.mem_cons_of_mem s hx)
      rw [hfam]
      exact this
    rw [List.map_map]
    have hpt : ∀ b ∈ B, (BalanceEntry.balance ∘ applyOne s) b
        = BalanceEntry.balance b + (if b.family = s.deudor then s.cantidad
            else if b.family = s.acreedor then -s.cantidad else 0) := by
      intro b _
      exact applyOne_balance s b
    rw [List.map_congr_left hpt, sum_map_add]
    have hB : B.map (fun b => if b.family = s.deudor then s.cantidad
        else if b.family = s.acreedor then -s.cantidad else 0)
        = (B.map BalanceEntry.family).map (fun f => if f = s.deudor then s.cantidad
            else if f = s.acreedor then -s.cantidad else 0) := by
      rw [List.map_map]
      rfl
    obtain ⟨hdm, ham, hne⟩ := hmem s (List.mem_cons_self s S)
    rw [hB, sum_pair_cancel (B.map BalanceEntry.family) hnd hne hdm ham]
    ring

/-! ### Concrete inputs used by the claim instances -/

/-- Example 1 of the specification: families `A`, `B`; one paid item of
cost `100` paid by `A`. -/
def exTripAB : Trip :=
  ⟨["A", "B"], [[⟨100, true, "A"⟩]], []⟩

/-- Example 2 of the specification: families `A`, `B`, `C`; `A` pays 60,
`B` pays 30, `C` pays nothing. -/
def exTripABC : Trip :=
  ⟨["A", "B", "C"], [[⟨60, true, "A"⟩, ⟨30, true, "B"⟩]], []⟩

/-- Two families, one unpaid item of cost `100`: the cost enters `total`
but nobody's contribution. -/
def exTripUnpaidAB : Trip :=
  ⟨["A", "B"], [[⟨100, false, ""⟩]], []⟩

/-- One family, one unpaid item of cost `100`. -/
def exTripUnpaidA : Trip :=
  ⟨["A"], [[⟨100, false, ""⟩]], []⟩

/-- A participant list with a duplicated name (the engine accepts any
list, e.g. from imported JSON; only the add-family button deduplicates):
`D` appears twice, so the balances array carries two entries for `D`
while the contribution record has a single key.  Balances come out as
`D = -1`, `D = -1`, `E = -0.5`, `A = +2.2` (total `4`, fairShare `1`).
Every comparison in both runs stays at least `0.29` away from the `0.01`
tolerance, so IEEE-double rounding cannot change any branch. -/
def exTripDupFam : Trip :=
  ⟨["D", "D", "E", "A"],
    [[⟨1/2, true, "E"⟩, ⟨16/5, true, "A"⟩, ⟨3/10, false, ""⟩]], []⟩

/-- Two families, one paid item of cost `80` paid by `P`. -/
def exTripPQ : Trip :=
  ⟨["P", "Q"], [[⟨80, true, "P"⟩]], []⟩

/-- Empty participant list with a nonzero total. -/
def exTripEmptyFam : Trip :=
  ⟨[], [[⟨100, true, "A"⟩]], []⟩

/-- One family and a single paid item of `300`, so `fairShare = 300`. -/
def exTripSavings : Trip :=
  ⟨["A"], [[⟨300, true, "A"⟩]], []⟩

/-- Family `A` pays a numeric item of `100` and also an item whose cost
is non-numeric (`NaN`, e.g. from `parseFloat('')`). -/
def exRawItemsTwo : List RawItem :=
  [⟨some 100, true, "A"⟩, ⟨none, true, "A"⟩]

/-- The same input with the non-numeric cost actually treated as zero:
what the specification says the engine computes on `exRawItemsTwo`. -/
def exTripZeroed : Trip :=
  ⟨["A", "B"], [[⟨100, true, "A"⟩, ⟨0, true, "A"⟩]], []⟩

/-! ### The claims -/

/-- C4: a non-numeric (or missing) cost is read as zero by `total` (line
27) and `paid` (line 28), but not by the contribution output.  Line 37
adds the unguarded `Number(item.coste)`, so the payer's accumulated
record becomes `NaN`, and the `contribution[f] || 0` read at lines 53-54
then collapses it to `0` - discarding the payer's numeric items as well.
At the failing input (`A` pays `100` and also a `NaN`-cost item)
treating the bad cost as zero would give `A` contribution `100` and
balance `+50`, but the code outputs contribution `0` and balance `-50`:
the cost is not treated as zero in the contribution it affects. -/
theorem claim_C4 :
    totalRaw exRawItemsTwo = total exTripZeroed
      ∧ paidRaw exRawItemsTwo = paid exTripZeroed
      ∧ contributionRaw ["A", "B"] exRawItemsTwo [] "A" = none
      ∧ balancesRaw ["A", "B"] exRawItemsTwo [] = [⟨"A", 0, -50⟩, ⟨"B", 0, -50⟩]
      ∧ balances exTripZeroed = [⟨"A", 100, 50⟩, ⟨"B", 0, -50⟩]
      ∧ balancesRaw ["A", "B"] exRawItemsTwo [] ≠ balances exTripZeroed := by
  refine ⟨?_, ?_, ?_, ?_, ?_, ?_⟩ <;>
    norm_num +decide [totalRaw, paidRaw, contributionRaw, balancesRaw, numberOrZero, nanAdd,
      total, paid, balances, contribution, fairShare, numFamilies, allItems,
      exRawItemsTwo, exTripZeroed]

/-- C5: the greedy settlement loop terminates for every input: running it
with fuel `|debtors| + |creditors|` falsifies the `while` guard, and any
extra fuel leaves the state unchanged, so the iteration count is bounded
by the combined length of the two lists (each iteration advances a
cursor, `step_advance`); the loop body contains no division at all. -/
theorem claim_C5 (t : Trip) (k : ℕ) :
    ¬ loopGuard (finalState t)
      ∧ loopRun ((debtors t).length + (creditors t).length + k) (initState t) = finalState t := by
  refine ⟨(finalState_inv t).2, ?_⟩
  rw [loopRun_add ((debtors t).length + (creditors t).length) k (initState t)]
  rw [show loopRun ((debtors t).length + (creditors t).length) (initState t) = finalState t
    from rfl]
  exact loopRun_of_not_guard (finalState_inv t).2 k

/-- C6: the engine is total and never divides by zero: the `fairShare`
divisor `trip.familias.length || 1` equals `max 1 length`, is never zero,
and on an empty participant list `fairShare` collapses to `total`. -/
theorem claim_C6 (t : Trip) :
    numFamilies t = max 1 t.familias.length
      ∧ (numFamilies t : ℚ) ≠ 0
      ∧ (t.familias = [] → fairShare t = total t) := by
  refine ⟨?_, ?_, ?_⟩
  · rw [numFamilies]
    by_cases h : t.familias.length = 0
    · rw [if_pos h, h]
      simp
    · rw [if_neg h]
      omega
  · have h1 : numFamilies t ≠ 0 := by
      rw [numFamilies]
      by_cases h : t.familias.length = 0
      · rw [if_pos h]
        omega
      · rw [if_neg h]
        exact h
    exact Nat.cast_ne_zero.mpr h1
  · intro h
    rw [fairShare, numFamilies, h]
    norm_num

/-- C6 witness: the degenerate input (no families, total `100`) hits the
floored divisor and yields `fairShare = total`. -/
theorem claim_C6_witness :
    exTripEmptyFam.familias = [] ∧ fairShare exTripEmptyFam = total exTripEmptyFam :=
  ⟨rfl, (claim_C6 exTripEmptyFam).2.2 rfl⟩

/-- C7: the engine on Example 2 (`A` pays 60, `B` pays 30, `C` nothing):
`total = 90`, `fairShare = 30`, contributions `60, 30, 0`, balances
`+30, 0, -30`, and the only suggestion is `C -> A` for `30`; `B` is
filtered out by the tolerance band. -/
theorem claim_C7 :
    total exTripABC = 90 ∧ fairShare exTripABC = 30
      ∧ balances exTripABC = [⟨"A", 60, 30⟩, ⟨"B", 30, 0⟩, ⟨"C", 0, -30⟩]
      ∧ settlements exTripABC = [⟨"C", "A", 30⟩] := by
  refine ⟨?_, ?_, ?_, ?_⟩ <;>
    norm_num +decide [settlements, finalState, initState, loopRun, step, loopGuard,
      curD, curC, amt, dflt, debtors, creditors, sortAsc, insertAsc, sortDesc, insertDesc,
      balances, contribution, fairShare, numFamilies, total, allItems, exTripABC,
      min_def, abs]

/-- C8: `monthsUntilTrip` is the floored calendar-month difference
`max 1 ((startYear - nowYear) * 12 + (startMonth - nowMonth))` and
`monthlySavingNeeded = fairShare / monthsUntilTrip`; a trip starting
exactly 3 calendar months from now with `fairShare = 300` gives
`monthsUntilTrip = 3` and a monthly saving of `100`. -/
theorem claim_C8 (t : Trip) (today startObj : YMDate) :
    monthsUntilTrip today startObj
        = max 1 ((startObj.year - today.year) * 12 + (startObj.month - today.month))
      ∧ monthlySavingNeeded t today startObj
        = fairShare t / ((monthsUntilTrip today startObj : ℤ) : ℚ)
      ∧ monthsUntilTrip ⟨2026, 0⟩ ⟨2026, 3⟩ = 3
      ∧ monthlySavingNeeded exTripSavings ⟨2026, 0⟩ ⟨2026, 3⟩ = 100 := by
  refine ⟨rfl, rfl, by norm_num [monthsUntilTrip, getMonthDifference], ?_⟩
  norm_num [monthlySavingNeeded, monthsUntilTrip, getMonthDifference,
    fairShare, numFamilies, total, allItems, exTripSavings]

/-- C9: the engine is deterministic by construction (it is a pure
function of the snapshot); the observable ordering contract holds: the
`balances` output lists families in participant-list order, the debtor
and creditor working lists are sorted (ascending and descending by
balance), and sorting is stable: entries of any given balance appear in
the same order as in the filtered `balances` list, which itself follows
participant order. -/
theorem claim_C9 (t : Trip) (q : ℚ) :
    (balances t).map BalanceEntry.family = t.familias
      ∧ (debtors t).Pairwise (fun a b => a.balance ≤ b.balance)
      ∧ (creditors t).Pairwise (fun a b => b.balance ≤ a.balance)
      ∧ (debtors t).filter (fun b => decide (b.balance = q))
          = ((balances t).filter (fun b => decide (b.balance < -(1/100)))).filter
              (fun b => decide (b.balance = q))
      ∧ (creditors t).filter (fun b => decide (b.balance = q))
          = ((balances t).filter (fun b => decide (b.balance > 1/100))).filter
              (fun b => decide (b.balance = q)) :=
  ⟨balances_map_family t, pairwise_sortAsc _, pairwise_sortDesc _,
    filter_sortAsc _ q, filter_sortDesc _ q⟩

/-- C10: every emitted suggestion moves strictly more than `0.01` from a
family whose computed balance is below `-0.01` to a distinct family whose
computed balance is above `0.01`: no self-payments, no zero or negative
amounts. -/
theorem claim_C10 (t : Trip) :
    ∀ s ∈ settlements t,
      1/100 < s.cantidad ∧ s.deudor ≠ s.acreedor
        ∧ (∃ b ∈ balances t, b.family = s.deudor ∧ b.balance < -(1/100))
        ∧ (∃ b ∈ balances t, b.family = s.acreedor ∧ b.balance > 1/100) := by
  intro s hs
  obtain ⟨h1, h2, h3, h4⟩ := settlements_spec t s hs
  exact ⟨h1, h4, h2, h3⟩

/-- C10 witness: on the trip where `P` paid 80 for two families the only
suggestion is `Q -> P` for `40`, which indeed exceeds the tolerance and
joins two distinct families on the correct sides of the band. -/
theorem claim_C10_witness :
    (⟨"Q", "P", 40⟩ : Compensacion) ∈ settlements exTripPQ
      ∧ (1/100 < (40 : ℚ) ∧ ("Q" : String) ≠ "P"
        ∧ (∃ b ∈ balances exTripPQ, b.family = "Q" ∧ b.balance < -(1/100))
        ∧ (∃ b ∈ balances exTripPQ, b.family = "P" ∧ b.balance > 1/100)) := by
  have hmem : (⟨"Q", "P", 40⟩ : Compensacion) ∈ settlements exTripPQ := by
    norm_num +decide [settlements, finalState, initState, loopRun, step, loopGuard,
      curD, curC, amt, dflt, debtors, creditors, sortAsc, insertAsc, sortDesc, insertDesc,
      balances, contribution, fairShare, numFamilies, total, allItems, exTripPQ,
      min_def, abs]
  exact ⟨hmem, claim_C10 exTripPQ ⟨"Q", "P", 40⟩ hmem⟩

/-- C1 (amended): the zero-sum invariant holds provided the input is
inside the data model the specification assumes: participant names are
unique, every expense item is paid by a participant of the list (with a
nonempty payer name), and every reimbursement names a debtor and a
creditor that are either both in or both out of the participant list.
Then the balances sum to zero exactly (hence within `1e-6`), before and
after applying any sublist of the suggested settlements.  Without those
hypotheses the invariant fails: see the counterexample (an unpaid item
enters `total` but nobody's contribution). -/
theorem claim_C1 (t : Trip) (hnd : t.familias.Nodup)
    (hitems : ∀ i ∈ allItems t, i.pagado = true ∧ i.pagadoPor ∈ t.familias ∧ i.pagadoPor ≠ "")
    (hcomps : ∀ c ∈ t.compensaciones, (c.deudor ∈ t.familias ↔ c.acreedor ∈ t.familias)) :
    |((balances t).map BalanceEntry.balance).sum| ≤ 1/1000000
      ∧ ∀ S, S.Sublist (settlements t) →
        |((applySettlements S (balances t)).map BalanceEntry.balance).sum| ≤ 1/1000000 := by
  have h0 := sum_balances_zero t hnd hitems hcomps
  have hnd' : ((balances t).map BalanceEntry.family).Nodup := by
    rw [balances_map_family]
    exact hnd
  refine ⟨by rw [h0]; norm_num, ?_⟩
  intro S hS
  have hmem : ∀ s ∈ S, s.deudor ∈ (balances t).map BalanceEntry.family
      ∧ s.acreedor ∈ (balances t).map BalanceEntry.family ∧ s.deudor ≠ s.acreedor := by
    intro s hs
    obtain ⟨_, ⟨bd, hbd, hbdf, _⟩, ⟨bc, hbc, hbcf, _⟩, hne⟩ :=
      settlements_spec t s (hS.subset hs)
    exact ⟨List.mem_map.mpr ⟨bd, hbd, hbdf⟩, List.mem_map.mpr ⟨bc, hbc, hbcf⟩, hne⟩
  rw [sum_applySettlements S (balances t) hnd' hmem, h0]
  norm_num

/-- C1 counterexample: two families and a single unpaid item of cost 100
give balances `-50` and `-50`: their sum is `-100`, far beyond the `1e-6`
tolerance, so the invariant does not hold for every input. -/
theorem claim_C1_counterexample :
    ¬ |((balances exTripUnpaidAB).map BalanceEntry.balance).sum| ≤ 1/1000000 := by
  norm_num +decide [balances, contribution, fairShare, numFamilies, total, allItems,
    exTripUnpaidAB, abs]

/-- C1 witness: Example 1 (families `A`, `B`, item 100 paid by `A`)
satisfies the hypotheses and its balances sum to zero before and after
settling. -/
theorem claim_C1_witness :
    (exTripAB.familias.Nodup
      ∧ (∀ i ∈ allItems exTripAB,
          i.pagado = true ∧ i.pagadoPor ∈ exTripAB.familias ∧ i.pagadoPor ≠ "")
      ∧ (∀ c ∈ exTripAB.compensaciones,
          (c.deudor ∈ exTripAB.familias ↔ c.acreedor ∈ exTripAB.familias)))
      ∧ (|((balances exTripAB).map BalanceEntry.balance).sum| ≤ 1/1000000
        ∧ ∀ S, S.Sublist (settlements exTripAB) →
          |((applySettlements S (balances exTripAB)).map BalanceEntry.balance).sum|
            ≤ 1/1000000) :=
  ⟨⟨by decide, by decide, by decide⟩,
    claim_C1 exTripAB (by decide) (by decide) (by decide)⟩

/-- C2 (amended): if the loop exhausted both the debtor and the creditor
list and every transfer it applied was emitted (equivalently, replaying
the emitted suggestions reproduces the final working balances), then
applying every suggestion to the engine balances leaves every family
within `0.01` of zero.  As stated over all inputs the claim is false: see
the counterexample, where an unpaid item leaves a residual balance and no
suggestion at all; transfers of exactly `0.01` applied but not emitted,
and one list outlasting the other, break it as well. -/
theorem claim_C2 (t : Trip) (hex : bothExhausted t) (hw : emittedFaithful t) :
    ∀ e ∈ applySettlements (settlements t) (balances t), |e.balance| ≤ 1/100 :=
  applied_tolerance t hex hw

/-- C2 counterexample: one family, one unpaid item of cost 100: the
settlements list is empty (there is no creditor), so applying every
suggestion leaves the family's balance at `-100`. -/
theorem claim_C2_counterexample :
    ¬ (∀ e ∈ applySettlements (settlements exTripUnpaidA) (balances exTripUnpaidA),
        |e.balance| ≤ 1/100) := by
  intro h
  have hmem : (⟨"A", 0, -100⟩ : BalanceEntry)
      ∈ applySettlements (settlements exTripUnpaidA) (balances exTripUnpaidA) := by
    norm_num +decide [settlements, finalState, initState, loopRun, step, loopGuard,
      curD, curC, amt, dflt, debtors, creditors, sortAsc, insertAsc, sortDesc, insertDesc,
      balances, contribution, fairShare, numFamilies, total, allItems,
      applySettlements, applyOne, min_def, abs,
      exTripUnpaidA]
  have hf := h _ hmem
  norm_num at hf

/-- C2 witness: on Example 2 the loop consumes both lists, the single
suggestion `C -> A, 30` accounts for every applied transfer, and the
settled balances are all zero. -/
theorem claim_C2_witness :
    (bothExhausted exTripABC ∧ emittedFaithful exTripABC)
      ∧ ∀ e ∈ applySettlements (settlements exTripABC) (balances exTripABC),
          |e.balance| ≤ 1/100 := by
  have hex : bothExhausted exTripABC := by
    norm_num +decide [bothExhausted, settlements, finalState, initState, loopRun, step, loopGuard,
      curD, curC, amt, dflt, debtors, creditors, sortAsc, insertAsc, sortDesc, insertDesc,
      balances, contribution, fairShare, numFamilies, total, allItems,
      applySettlements, applyOne, min_def, abs,
      exTripABC]
  have hw : emittedFaithful exTripABC := by
    norm_num +decide [emittedFaithful, settlements, finalState, initState, loopRun, step, loopGuard,
      curD, curC, amt, dflt, debtors, creditors, sortAsc, insertAsc, sortDesc, insertDesc,
      balances, contribution, fairShare, numFamilies, total, allItems,
      applySettlements, applyOne, min_def, abs,
      exTripABC]
  exact ⟨⟨hex, hw⟩, claim_C2 exTripABC hex hw⟩

/-- C3 (amended): under the same two hypotheses as C2 (the loop exhausted
both lists and emitted every transfer it applied), recording all
suggestions as reimbursements and re-running the engine yields an empty
settlements list.  Over all inputs the claim is false: with a duplicated
participant name the two balance entries of that family are settled
separately but both recorded suggestions credit the single contribution
record key, so the re-run sees that family overshoot into creditor
territory while a debtor stranded by the exhausted creditor list remains
- and emits again. -/
theorem claim_C3 (t : Trip) (hex : bothExhausted t) (hw : emittedFaithful t) :
    settlements (settleTrip t) = [] :=
  settle_nil t hex hw

/-- C3 counterexample: on the duplicated-name trip the engine emits
`D -> A, 1`, `D -> A, 1` and `E -> A, 0.2`, leaving `E` stranded at
`-0.3` when the creditor list runs out.  Recording all three suggestions
adds `2` to the single contribution key `D`, so the re-run computes
balances `D = +1, D = +1, E = -0.3, A = 0` and emits `E -> D, 0.3`: the
new settlements list is not empty.  All branch conditions sit far from
the `0.01` band, so the floating-point run of the source agrees. -/
theorem claim_C3_counterexample :
    settlements (settleTrip exTripDupFam) ≠ [] := by
  norm_num +decide [settlements, finalState, initState, loopRun, step, loopGuard,
      curD, curC, amt, dflt, debtors, creditors, sortAsc, insertAsc, sortDesc, insertDesc,
      balances, contribution, fairShare, numFamilies, total, allItems,
      applySettlements, applyOne, min_def, abs,
    settleTrip, exTripDupFam]

/-- C3 witness: Example 3 of the specification: settling Example 1's
suggestion `B -> A, 50` and re-running the engine leaves nothing to
suggest. -/
theorem claim_C3_witness :
    (bothExhausted exTripAB ∧ emittedFaithful exTripAB)
      ∧ settlements (settleTrip exTripAB) = [] := by
  have hex : bothExhausted exTripAB := by
    norm_num +decide [bothExhausted, settlements, finalState, initState, loopRun, step, loopGuard,
      curD, curC, amt, dflt, debtors, creditors, sortAsc, insertAsc, sortDesc, insertDesc,
      balances, contribution, fairShare, numFamilies, total, allItems,
      applySettlements, applyOne, min_def, abs,
      exTripAB]
  have hw : emittedFaithful exTripAB := by
    norm_num +decide [emittedFaithful, settlements, finalState, initState, loopRun, step, loopGuard,
      curD, curC, amt, dflt, debtors, creditors, sortAsc, insertAsc, sortDesc, insertDesc,
      balances, contribution, fairShare, numFamilies, total, allItems,
      applySettlements, applyOne, min_def, abs,
      exTripAB]
  exact ⟨⟨hex, hw⟩, claim_C3 exTripAB hex hw⟩

end Viajes
